import Mathlib

/-!
Shallow embedding of the task-list application's model layer
(`src/model/todo-model.js` and `src/model/storage-service.js`).

The browser's `localStorage` is modelled as an association list from full
(namespaced) keys to entries.  An entry either holds a JSON value (the result
of a successful `JSON.stringify`/`JSON.parse` round trip), or is `malformed`
(a stored string on which `JSON.parse` throws), or is `readError` (a key on
which `localStorage.getItem` itself throws; the service catches both).
`JSON.stringify` followed by `JSON.parse` is the identity on JSON-serializable
values, so the store holds the structured values directly.

`TodoModel` is state-passing: every JS method that mutates `this` becomes a
function from the model state to a new model state.  Subscriber callbacks are
opaque, so the listener array is modelled by its length and `notify()` by a
counter of notification rounds; `new Date().toISOString()` is nondeterministic
input and becomes an explicit `now` argument.  A JS argument that may be
`undefined` (and is truthiness-tested with `!x`) becomes an `Option String`.
-/

namespace TodoApp

/-- JSON values, as produced by `JSON.parse`. -/
inductive Json where
  | null : Json
  | bool (b : Bool) : Json
  | num (n : Int) : Json
  | str (s : String) : Json
  | arr (elems : List Json) : Json
  | obj (fields : List (String × Json)) : Json

/-- One entry of the underlying key-value store (`localStorage`). -/
inductive Entry where
  | json (j : Json) : Entry
  | malformed : Entry
  | readError : Entry

/-- The underlying key-value store: full key to entry. -/
abbrev LocalStorage := List (String × Entry)

/-- Lookup of a full key in the store (`localStorage.getItem`). -/
def lookupEntry : LocalStorage → String → Option Entry
  | [], _ => none
  | (k, e) :: rest, key => if key = k then some e else lookupEntry rest key

/-- Write of a full key in the store (`localStorage.setItem`). -/
def setEntry : LocalStorage → String → Entry → LocalStorage
  | [], key, e => [(key, e)]
  | (k, v) :: rest, key, e =>
    if key = k then (key, e) :: rest else (k, v) :: setEntry rest key e

/-- Namespaced full key: `` `${this.storageKey}_${key}` `` in the source. -/
def fullKey (pfx key : String) : String := pfx ++ "_" ++ key

/-- StorageService.load: returns the parsed value, or `defaultValue` when the
key is absent, the stored text is unparseable, or the read throws. -/
def StorageService.load (ls : LocalStorage) (pfx key : String)
    (defaultValue : Json) : Json :=
  match lookupEntry ls (fullKey pfx key) with
  | some (Entry.json j) => j
  | some Entry.malformed => defaultValue
  | some Entry.readError => defaultValue
  | none => defaultValue

/-- StorageService.save: serializes `data` and stores it under the namespaced
key. -/
def StorageService.save (ls : LocalStorage) (pfx key : String)
    (data : Json) : LocalStorage :=
  setEntry ls (fullKey pfx key) (Entry.json data)

/-- JS `String.prototype.trim`: strips leading and trailing whitespace.
Implemented by structural recursion on the character list so that concrete
instances evaluate. -/
def jsTrim (s : String) : String :=
  ⟨((s.data.dropWhile Char.isWhitespace).reverse.dropWhile Char.isWhitespace).reverse⟩

/-- JS `String.prototype.toLowerCase` (on the alphabets used here). -/
def jsToLower (s : String) : String := ⟨s.data.map Char.toLower⟩

/-- A single todo item (the `TodoItem` typedef of `todo-model.js`). -/
structure Task where
  id : Nat
  text : String
  completed : Bool
  priority : String
  createdAt : String
  deriving DecidableEq, Repr

/-- JSON encoding of a task, as `JSON.stringify` serializes the JS object. -/
def Task.toJson (t : Task) : Json :=
  Json.obj [("id", Json.num (Int.ofNat t.id)), ("text", Json.str t.text),
    ("completed", Json.bool t.completed), ("priority", Json.str t.priority),
    ("createdAt", Json.str t.createdAt)]

/-- JSON encoding of the task list. -/
def tasksToJson (ts : List Task) : Json := Json.arr (ts.map Task.toJson)

/-- Typing shim for the untyped JS constructor: reads a task back out of its
JSON encoding.  The JS code performs no validation (the parsed objects are
used as tasks directly), so this decoder is only the partial inverse of
`Task.toJson`, exercised on stores that follow the documented persistence
format. -/
def Task.fromJson : Json → Option Task
  | Json.obj [("id", Json.num i), ("text", Json.str s),
      ("completed", Json.bool b), ("priority", Json.str p),
      ("createdAt", Json.str c)] =>
    if 0 ≤ i then some ⟨i.toNat, s, b, p, c⟩ else none
  | _ => none

/-- Decodes a list of task encodings, failing if any element fails. -/
def tasksFromList : List Json → Option (List Task)
  | [] => some []
  | j :: js =>
    match Task.fromJson j, tasksFromList js with
    | some t, some ts => some (t :: ts)
    | _, _ => none

/-- Decodes the stored `items` value. -/
def decodeItems : Json → Option (List Task)
  | Json.arr js => tasksFromList js
  | _ => none

/-- Decodes the stored `nextId` value. -/
def decodeNat : Json → Option Nat
  | Json.num i => if 0 ≤ i then some i.toNat else none
  | _ => none

/-- State of a `TodoModel` instance, together with the backing store.
`listeners` is the length of the subscriber array (callbacks are opaque);
`notifyCount` counts completed `notify()` rounds. -/
structure TodoModel where
  storageKey : String
  todos : List Task
  nextId : Nat
  listeners : Nat
  store : LocalStorage
  notifyCount : Nat

/-- TodoModel constructor: loads `items` (default `[]`) and `nextId`
(default `1`) through the storage service; starts with no listeners.  The
decoders with the same defaults stand in for the untyped JS field
assignments. -/
def TodoModel.init (pfx : String) (store : LocalStorage) : TodoModel :=
  { storageKey := pfx
    todos := (decodeItems (StorageService.load store pfx "items" (Json.arr []))).getD []
    nextId := (decodeNat (StorageService.load store pfx "nextId" (Json.num 1))).getD 1
    listeners := 0
    store := store
    notifyCount := 0 }

/-- TodoModel.save: writes the full snapshot (`items` then `nextId`). -/
def TodoModel.save (m : TodoModel) : TodoModel :=
  let st := StorageService.save m.store m.storageKey "items" (tasksToJson m.todos)
  { m with store := StorageService.save st m.storageKey "nextId" (Json.num (Int.ofNat m.nextId)) }

/-- TodoModel.notify: invokes every registered callback (one round). -/
def TodoModel.notify (m : TodoModel) : TodoModel :=
  { m with notifyCount := m.notifyCount + 1 }

/-- TodoModel.subscribe: pushes a callback onto the listener array. -/
def TodoModel.subscribe (m : TodoModel) : TodoModel :=
  { m with listeners := m.listeners + 1 }

/-- TodoModel.addTodo.  `text` is `none` when the argument is absent;
`!text || text.trim() === ''` collapses to `none`, or `some s` with
`s.trim = ""` (an empty string is also falsy and has empty trim). -/
def TodoModel.addTodo (m : TodoModel) (text : Option String)
    (priority now : String) : TodoModel :=
  match text with
  | none => m
  | some s =>
    if jsTrim s = "" then m
    else
      (TodoModel.save
        { m with todos := m.todos ++ [⟨m.nextId, jsTrim s, false, priority, now⟩]
                 nextId := m.nextId + 1 }).notify

/-- Flips `completed` on the first task with the given id, as the in-place
mutation of the object returned by `this.todos.find` does. -/
def toggleFirst : List Task → Nat → List Task
  | [], _ => []
  | t :: ts, id =>
    if t.id = id then { t with completed := !t.completed } :: ts
    else t :: toggleFirst ts id

/-- TodoModel.toggleComplete. -/
def TodoModel.toggleComplete (m : TodoModel) (id : Nat) : TodoModel :=
  match m.todos.find? (fun t => t.id == id) with
  | some _ => (TodoModel.save { m with todos := toggleFirst m.todos id }).notify
  | none => m

/-- TodoModel.deleteTodo: `this.todos.filter(t => t.id !== id)`, then save
and notify unconditionally. -/
def TodoModel.deleteTodo (m : TodoModel) (id : Nat) : TodoModel :=
  (TodoModel.save { m with todos := m.todos.filter (fun t => t.id != id) }).notify

/-- Replaces `text` on the first task with the given id. -/
def updateFirst : List Task → Nat → String → List Task
  | [], _, _ => []
  | t :: ts, id, s =>
    if t.id = id then { t with text := s } :: ts
    else t :: updateFirst ts id s

/-- TodoModel.updateTodo: mutates only when the task is found and the trimmed
new text is nonempty (`todo && newText && newText.trim() !== ''`). -/
def TodoModel.updateTodo (m : TodoModel) (id : Nat)
    (newText : Option String) : TodoModel :=
  match m.todos.find? (fun t => t.id == id), newText with
  | some _, some s =>
    if jsTrim s = "" then m
    else (TodoModel.save { m with todos := updateFirst m.todos id (jsTrim s) }).notify
  | _, _ => m

/-- TodoModel.clearCompleted. -/
def TodoModel.clearCompleted (m : TodoModel) : TodoModel :=
  (TodoModel.save { m with todos := m.todos.filter (fun t => !t.completed) }).notify

/-- TodoModel.clearAll. -/
def TodoModel.clearAll (m : TodoModel) : TodoModel :=
  (TodoModel.save { m with todos := [] }).notify

/-- JS `String.prototype.includes`: substring containment. -/
def jsIncludes (s pat : String) : Bool := decide (pat.data <:+: s.data)

/-- TodoModel.search: pure read; the empty query is falsy and returns the
whole list. -/
def TodoModel.search (m : TodoModel) (query : String) : List Task :=
  if query = "" then m.todos
  else m.todos.filter (fun t => jsIncludes (jsToLower t.text) (jsToLower query))

/-- TodoModel.activeCount. -/
def TodoModel.activeCount (m : TodoModel) : Nat :=
  (m.todos.filter (fun t => !t.completed)).length

/-- TodoModel.completedCount. -/
def TodoModel.completedCount (m : TodoModel) : Nat :=
  (m.todos.filter (fun t => t.completed)).length

/-- One public mutating call on the model.  `add` carries `none` as priority
when the caller omits the argument (JS default parameter `'medium'`), and the
`now` string read from the clock at the call. -/
inductive Op where
  | add (text : Option String) (priority : Option String) (now : String)
  | toggle (id : Nat)
  | delete (id : Nat)
  | update (id : Nat) (newText : Option String)
  | clearCompleted
  | clearAll
  | subscribe

/-- Dispatches one public call. -/
def applyOp (m : TodoModel) : Op → TodoModel
  | Op.add text priority now => m.addTodo text (priority.getD "medium") now
  | Op.toggle id => m.toggleComplete id
  | Op.delete id => m.deleteTodo id
  | Op.update id newText => m.updateTodo id newText
  | Op.clearCompleted => m.clearCompleted
  | Op.clearAll => m.clearAll
  | Op.subscribe => m.subscribe

/-- Runs a sequence of public calls. -/
def run (m : TodoModel) (ops : List Op) : TodoModel := ops.foldl applyOp m

/-- The initial model state of the spec: empty task list, counter 1, no
listeners, over an arbitrary pre-existing store content. -/
def initialModel (pfx : String) (store₀ : LocalStorage) : TodoModel :=
  { storageKey := pfx, todos := [], nextId := 1, listeners := 0,
    store := store₀, notifyCount := 0 }

/-- The ids of the tasks currently in the list. -/
def idsOf (m : TodoModel) : List Nat := m.todos.map Task.id

/-- The persistent snapshot matches the in-memory state: the store holds the
current task list under `items` and the current counter under `nextId`. -/
def storeSynced (m : TodoModel) : Prop :=
  lookupEntry m.store (fullKey m.storageKey "items")
      = some (Entry.json (tasksToJson m.todos)) ∧
    lookupEntry m.store (fullKey m.storageKey "nextId")
      = some (Entry.json (Json.num (Int.ofNat m.nextId)))

/-- A concrete two-task model state used by the witness instances. -/
def sampleModel : TodoModel :=
  { storageKey := "todos"
    todos := [⟨1, "a", false, "medium", "t0"⟩, ⟨2, "b", true, "high", "t1"⟩]
    nextId := 3
    listeners := 0
    store := []
    notifyCount := 0 }

/-- Data invariant of the model: ids pairwise distinct, counter above them. -/
def Inv (m : TodoModel) : Prop :=
  (idsOf m).Nodup ∧ ∀ t ∈ m.todos, t.id < m.nextId

/-- Priority domain the spec documents for tasks. -/
def validPriority (p : String) : Prop := p = "low" ∨ p = "medium" ∨ p = "high"

/-- A public call supplies a documented priority: `addTodo` either omits the
argument (JS default `'medium'`) or passes one of the three values. -/
def opPriorityOk : Op → Prop
  | Op.add _ none _ => True
  | Op.add _ (some p) _ => validPriority p
  | _ => True

/-- All priorities in the list are documented values. -/
def PriInv (m : TodoModel) : Prop := ∀ t ∈ m.todos, validPriority t.priority

/-! ## Store lemmas -/

theorem lookupEntry_setEntry (ls : LocalStorage) (key key' : String) (e : Entry) :
    lookupEntry (setEntry ls key e) key' =
      if key' = key then some e else lookupEntry ls key' := by
  induction ls with
  | nil => simp [setEntry, lookupEntry]
  | cons p rest ih =>
    obtain ⟨k, v⟩ := p
    by_cases h1 : key = k
    · subst h1
      by_cases h2 : key' = key <;> simp [setEntry, lookupEntry, h2]
    · by_cases h2 : key' = k
      · subst h2
        simp [setEntry, lookupEntry, h1, Ne.symm h1]
      · simp [setEntry, lookupEntry, h1, h2, ih]

theorem fullKey_inj (pfx : String) {a b : String} (h : fullKey pfx a = fullKey pfx b) :
    a = b := by
  have hd := congrArg String.data h
  simp [fullKey, String.data_append] at hd
  exact String.ext hd

theorem items_ne_nextId (pfx : String) :
    fullKey pfx "items" ≠ fullKey pfx "nextId" := by
  intro h
  have := fullKey_inj pfx h
  simp at this

theorem save_store_lookup (m : TodoModel) :
    lookupEntry m.save.store (fullKey m.storageKey "items")
        = some (Entry.json (tasksToJson m.todos)) ∧
      lookupEntry m.save.store (fullKey m.storageKey "nextId")
        = some (Entry.json (Json.num (Int.ofNat m.nextId))) := by
  constructor
  · simp [TodoModel.save, StorageService.save, lookupEntry_setEntry,
      items_ne_nextId m.storageKey]
  · simp [TodoModel.save, StorageService.save, lookupEntry_setEntry]

theorem storeSynced_save_notify (m : TodoModel) : storeSynced (m.save.notify) := by
  have h := save_store_lookup m
  constructor
  · simpa [TodoModel.notify, TodoModel.save] using h.1
  · simpa [TodoModel.notify, TodoModel.save] using h.2

/-! ## List-level lemmas about the task list -/

theorem find?_id_eq_none_iff (l : List Task) (id : Nat) :
    l.find? (fun t => t.id == id) = none ↔ id ∉ l.map Task.id := by
  rw [List.find?_eq_none]
  constructor
  · intro h hmem
    obtain ⟨t, ht, he⟩ := List.mem_map.mp hmem
    exact h t ht (by simp [he])
  · intro h t ht hbeq
    exact h (List.mem_map.mpr ⟨t, ht, by simpa using hbeq⟩)

theorem toggleFirst_map_id (l : List Task) (id : Nat) :
    (toggleFirst l id).map Task.id = l.map Task.id := by
  induction l with
  | nil => rfl
  | cons t ts ih =>
    by_cases h : t.id = id <;> simp [toggleFirst, h, ih]

theorem toggleFirst_toggleFirst (l : List Task) (id : Nat) :
    toggleFirst (toggleFirst l id) id = l := by
  induction l with
  | nil => rfl
  | cons t ts ih =>
    by_cases h : t.id = id
    · cases t
      simp_all [toggleFirst]
    · simp [toggleFirst, h, ih]

theorem toggleFirst_append (l₁ : List Task) (t : Task) (l₂ : List Task)
    (h : ∀ u ∈ l₁, u.id ≠ t.id) :
    toggleFirst (l₁ ++ t :: l₂) t.id
      = l₁ ++ { t with completed := !t.completed } :: l₂ := by
  induction l₁ with
  | nil => simp [toggleFirst]
  | cons u us ih =>
    have hu : u.id ≠ t.id := h u (List.mem_cons_self u us)
    simp only [List.cons_append, toggleFirst, if_neg hu]
    exact congrArg (List.cons u) (ih (fun v hv => h v (List.mem_cons_of_mem u hv)))

theorem exists_decomp_of_mem_nodup (l : List Task) (t : Task) (hmem : t ∈ l)
    (hnd : (l.map Task.id).Nodup) :
    ∃ l₁ l₂, l = l₁ ++ t :: l₂ ∧ (∀ u ∈ l₁, u.id ≠ t.id) ∧ (∀ u ∈ l₂, u.id ≠ t.id) := by
  obtain ⟨l₁, l₂, rfl⟩ := List.append_of_mem hmem
  refine ⟨l₁, l₂, rfl, ?_, ?_⟩
  · intro u hu
    have h1 : (l₁.map Task.id).Disjoint (t.id :: l₂.map Task.id) := by
      have := hnd
      simp only [List.map_append, List.map_cons, List.nodup_append] at this
      exact this.2.2
    intro he
    exact h1 (List.mem_map_of_mem Task.id hu) (by simp [he])
  · intro u hu
    have h2 : (t.id :: l₂.map Task.id).Nodup := by
      have := hnd
      simp only [List.map_append, List.map_cons, List.nodup_append] at this
      exact this.2.1
    rw [List.nodup_cons] at h2
    intro he
    exact h2.1 (he ▸ List.mem_map_of_mem Task.id hu)

theorem filter_ne_append (l₁ : List Task) (t : Task) (l₂ : List Task)
    (h1 : ∀ u ∈ l₁, u.id ≠ t.id) (h2 : ∀ u ∈ l₂, u.id ≠ t.id) :
    (l₁ ++ t :: l₂).filter (fun u => u.id != t.id) = l₁ ++ l₂ := by
  rw [List.filter_append]
  have e1 : l₁.filter (fun u => u.id != t.id) = l₁ :=
    List.filter_eq_self.mpr (fun u hu => by simpa using h1 u hu)
  have e2 : l₂.filter (fun u => u.id != t.id) = l₂ :=
    List.filter_eq_self.mpr (fun u hu => by simpa using h2 u hu)
  simp [List.filter_cons, e1, e2]

theorem updateFirst_map_id (l : List Task) (id : Nat) (s : String) :
    (updateFirst l id s).map Task.id = l.map Task.id := by
  induction l with
  | nil => rfl
  | cons t ts ih =>
    by_cases h : t.id = id <;> simp [updateFirst, h, ih]

theorem toggleFirst_map_priority (l : List Task) (id : Nat) :
    (toggleFirst l id).map Task.priority = l.map Task.priority := by
  induction l with
  | nil => rfl
  | cons t ts ih =>
    by_cases h : t.id = id <;> simp [toggleFirst, h, ih]

theorem updateFirst_map_priority (l : List Task) (id : Nat) (s : String) :
    (updateFirst l id s).map Task.priority = l.map Task.priority := by
  induction l with
  | nil => rfl
  | cons t ts ih =>
    by_cases h : t.id = id <;> simp [updateFirst, h, ih]

theorem forall_mem_of_map_eq {α : Type} {f : Task → α} {P : α → Prop} {l l' : List Task}
    (hmap : l'.map f = l.map f) (h : ∀ t ∈ l, P (f t)) : ∀ t ∈ l', P (f t) := by
  intro t ht
  have hm : f t ∈ l'.map f := List.mem_map_of_mem f ht
  rw [hmap] at hm
  obtain ⟨u, hu, he⟩ := List.mem_map.mp hm
  exact he ▸ h u hu

theorem jsToLower_data (s : String) : (jsToLower s).data = s.data.map Char.toLower := rfl

/-! ## Decoder round-trip lemmas -/

theorem task_fromJson_toJson (t : Task) : Task.fromJson (Task.toJson t) = some t := by
  cases t
  simp [Task.toJson, Task.fromJson, Int.toNat_ofNat]

theorem tasksFromList_map_toJson (ts : List Task) :
    tasksFromList (ts.map Task.toJson) = some ts := by
  induction ts with
  | nil => rfl
  | cons t ts ih => simp [tasksFromList, task_fromJson_toJson, ih]

theorem decodeItems_tasksToJson (ts : List Task) :
    decodeItems (tasksToJson ts) = some ts := by
  simp [decodeItems, tasksToJson, tasksFromList_map_toJson]

theorem decodeNat_ofNat (n : Nat) : decodeNat (Json.num (n : Int)) = some n := by
  simp [decodeNat]

/-! ## Model invariant machinery -/

theorem applyOp_inv (m : TodoModel) (op : Op) (h : Inv m) : Inv (applyOp m op) := by
  obtain ⟨hnd, hbd⟩ := h
  cases op with
  | add text priority now =>
    cases text with
    | none => exact ⟨hnd, hbd⟩
    | some s =>
      by_cases hs : jsTrim s = ""
      · simp only [applyOp, TodoModel.addTodo, if_pos hs]
        exact ⟨hnd, hbd⟩
      · have heq : applyOp m (Op.add (some s) priority now) =
            (TodoModel.save { m with
              todos := m.todos ++ [⟨m.nextId, jsTrim s, false, priority.getD "medium", now⟩]
              nextId := m.nextId + 1 }).notify := by
          simp [applyOp, TodoModel.addTodo, hs]
        rw [heq]
        constructor
        · simp only [idsOf, TodoModel.save, TodoModel.notify, List.map_append, List.map_cons,
            List.map_nil]
          rw [List.nodup_append]
          refine ⟨hnd, List.nodup_singleton _, ?_⟩
          intro a ha hb
          simp at hb
          obtain ⟨u, hu, he⟩ := List.mem_map.mp ha
          have := hbd u hu
          omega
        · intro t ht
          simp only [TodoModel.save, TodoModel.notify, List.mem_append, List.mem_singleton] at ht
          simp only [TodoModel.save, TodoModel.notify]
          rcases ht with ht | rfl
          · have := hbd t ht
            omega
          · simp
  | toggle id =>
    cases hf : m.todos.find? (fun t => t.id == id) with
    | none =>
      simp only [applyOp, TodoModel.toggleComplete, hf]
      exact ⟨hnd, hbd⟩
    | some t0 =>
      have heq : applyOp m (Op.toggle id) =
          (TodoModel.save { m with todos := toggleFirst m.todos id }).notify := by
        simp [applyOp, TodoModel.toggleComplete, hf]
      rw [heq]
      constructor
      · simpa only [idsOf, TodoModel.save, TodoModel.notify, toggleFirst_map_id] using hnd
      · simp only [TodoModel.save, TodoModel.notify]
        exact forall_mem_of_map_eq (P := fun a => a < m.nextId)
          (toggleFirst_map_id m.todos id) hbd
  | delete id =>
    constructor
    · simp only [applyOp, TodoModel.deleteTodo, idsOf, TodoModel.save, TodoModel.notify]
      exact hnd.sublist ((List.filter_sublist m.todos).map Task.id)
    · intro t ht
      simp only [applyOp, TodoModel.deleteTodo, TodoModel.save, TodoModel.notify] at ht ⊢
      exact hbd t (List.mem_of_mem_filter ht)
  | update id newText =>
    cases hf : m.todos.find? (fun t => t.id == id) with
    | none =>
      cases newText <;> simp only [applyOp, TodoModel.updateTodo, hf] <;> exact ⟨hnd, hbd⟩
    | some t0 =>
      cases newText with
      | none =>
        simp only [applyOp, TodoModel.updateTodo, hf]
        exact ⟨hnd, hbd⟩
      | some s =>
        by_cases hs : jsTrim s = ""
        · simp only [applyOp, TodoModel.updateTodo, hf, if_pos hs]
          exact ⟨hnd, hbd⟩
        · have heq : applyOp m (Op.update id (some s)) =
              (TodoModel.save { m with todos := updateFirst m.todos id (jsTrim s) }).notify := by
            simp [applyOp, TodoModel.updateTodo, hf, hs]
          rw [heq]
          constructor
          · simpa only [idsOf, TodoModel.save, TodoModel.notify, updateFirst_map_id] using hnd
          · simp only [TodoModel.save, TodoModel.notify]
            exact forall_mem_of_map_eq (P := fun a => a < m.nextId)
              (updateFirst_map_id m.todos id (jsTrim s)) hbd
  | clearCompleted =>
    constructor
    · simp only [applyOp, TodoModel.clearCompleted, idsOf, TodoModel.save, TodoModel.notify]
      exact hnd.sublist ((List.filter_sublist m.todos).map Task.id)
    · intro t ht
      simp only [applyOp, TodoModel.clearCompleted, TodoModel.save, TodoModel.notify] at ht ⊢
      exact hbd t (List.mem_of_mem_filter ht)
  | clearAll =>
    constructor
    · simp [applyOp, TodoModel.clearAll, idsOf, TodoModel.save, TodoModel.notify]
    · intro t ht
      simp [applyOp, TodoModel.clearAll, TodoModel.save, TodoModel.notify] at ht
  | subscribe => exact ⟨hnd, hbd⟩

theorem run_inv (ops : List Op) (m : TodoModel) (h : Inv m) : Inv (run m ops) := by
  induction ops generalizing m with
  | nil => exact h
  | cons op ops ih => exact ih (applyOp m op) (applyOp_inv m op h)

theorem applyOp_nextId_mono (m : TodoModel) (op : Op) : m.nextId ≤ (applyOp m op).nextId := by
  cases op with
  | add text priority now =>
    cases text with
    | none => exact Nat.le_refl _
    | some s =>
      by_cases hs : jsTrim s = ""
      · simp [applyOp, TodoModel.addTodo, hs]
      · simp [applyOp, TodoModel.addTodo, hs, TodoModel.save, TodoModel.notify]
  | toggle id =>
    cases hf : m.todos.find? (fun t => t.id == id) <;>
      simp [applyOp, TodoModel.toggleComplete, hf, TodoModel.save, TodoModel.notify]
  | delete id => simp [applyOp, TodoModel.deleteTodo, TodoModel.save, TodoModel.notify]
  | update id newText =>
    cases hf : m.todos.find? (fun t => t.id == id) with
    | none => cases newText <;> simp [applyOp, TodoModel.updateTodo, hf]
    | some t0 =>
      cases newText with
      | none => simp [applyOp, TodoModel.updateTodo, hf]
      | some s =>
        by_cases hs : jsTrim s = "" <;>
          simp [applyOp, TodoModel.updateTodo, hf, hs, TodoModel.save, TodoModel.notify]
  | clearCompleted => simp [applyOp, TodoModel.clearCompleted, TodoModel.save, TodoModel.notify]
  | clearAll => simp [applyOp, TodoModel.clearAll, TodoModel.save, TodoModel.notify]
  | subscribe => exact Nat.le_refl _

theorem run_nextId_mono (ops : List Op) (m : TodoModel) : m.nextId ≤ (run m ops).nextId := by
  induction ops generalizing m with
  | nil => exact Nat.le_refl _
  | cons op ops ih => exact Nat.le_trans (applyOp_nextId_mono m op) (ih (applyOp m op))

theorem applyOp_data_noop_or_synced (m : TodoModel) (op : Op) :
    ((applyOp m op).todos = m.todos ∧ (applyOp m op).nextId = m.nextId ∧
      (applyOp m op).store = m.store) ∨ storeSynced (applyOp m op) := by
  cases op with
  | add text priority now =>
    cases text with
    | none => exact Or.inl ⟨rfl, rfl, rfl⟩
    | some s =>
      by_cases hs : jsTrim s = ""
      · have heq : applyOp m (Op.add (some s) priority now) = m := by
          simp [applyOp, TodoModel.addTodo, hs]
        rw [heq]
        exact Or.inl ⟨rfl, rfl, rfl⟩
      · refine Or.inr ?_
        have heq : applyOp m (Op.add (some s) priority now) =
            (TodoModel.save { m with
              todos := m.todos ++ [⟨m.nextId, jsTrim s, false, priority.getD "medium", now⟩]
              nextId := m.nextId + 1 }).notify := by
          simp [applyOp, TodoModel.addTodo, hs]
        rw [heq]
        exact storeSynced_save_notify _
  | toggle id =>
    cases hf : m.todos.find? (fun t => t.id == id) with
    | none =>
      have heq : applyOp m (Op.toggle id) = m := by
        simp [applyOp, TodoModel.toggleComplete, hf]
      rw [heq]
      exact Or.inl ⟨rfl, rfl, rfl⟩
    | some t0 =>
      refine Or.inr ?_
      have heq : applyOp m (Op.toggle id) =
          (TodoModel.save { m with todos := toggleFirst m.todos id }).notify := by
        simp [applyOp, TodoModel.toggleComplete, hf]
      rw [heq]
      exact storeSynced_save_notify _
  | delete id => exact Or.inr (storeSynced_save_notify _)
  | update id newText =>
    cases hf : m.todos.find? (fun t => t.id == id) with
    | none =>
      have heq : applyOp m (Op.update id newText) = m := by
        cases newText <;> simp [applyOp, TodoModel.updateTodo, hf]
      rw [heq]
      exact Or.inl ⟨rfl, rfl, rfl⟩
    | some t0 =>
      cases newText with
      | none =>
        have heq : applyOp m (Op.update id none) = m := by
          simp [applyOp, TodoModel.updateTodo, hf]
        rw [heq]
        exact Or.inl ⟨rfl, rfl, rfl⟩
      | some s =>
        by_cases hs : jsTrim s = ""
        · have heq : applyOp m (Op.update id (some s)) = m := by
            simp [applyOp, TodoModel.updateTodo, hf, hs]
          rw [heq]
          exact Or.inl ⟨rfl, rfl, rfl⟩
        · refine Or.inr ?_
          have heq : applyOp m (Op.update id (some s)) =
              (TodoModel.save { m with todos := updateFirst m.todos id (jsTrim s) }).notify := by
            simp [applyOp, TodoModel.updateTodo, hf, hs]
          rw [heq]
          exact storeSynced_save_notify _
  | clearCompleted => exact Or.inr (storeSynced_save_notify _)
  | clearAll => exact Or.inr (storeSynced_save_notify _)
  | subscribe => exact Or.inl ⟨rfl, rfl, rfl⟩

theorem applyOp_priInv (m : TodoModel) (op : Op) (hop : opPriorityOk op)
    (h : PriInv m) : PriInv (applyOp m op) := by
  cases op with
  | add text priority now =>
    cases text with
    | none => exact h
    | some s =>
      by_cases hs : jsTrim s = ""
      · have heq : applyOp m (Op.add (some s) priority now) = m := by
          simp [applyOp, TodoModel.addTodo, hs]
        rw [heq]; exact h
      · have heq : applyOp m (Op.add (some s) priority now) =
            (TodoModel.save { m with
              todos := m.todos ++ [⟨m.nextId, jsTrim s, false, priority.getD "medium", now⟩]
              nextId := m.nextId + 1 }).notify := by
          simp [applyOp, TodoModel.addTodo, hs]
        rw [heq]
        intro t ht
        simp only [TodoModel.save, TodoModel.notify, List.mem_append,
          List.mem_singleton] at ht
        rcases ht with ht | rfl
        · exact h t ht
        · cases priority with
          | none => exact Or.inr (Or.inl rfl)
          | some p => exact hop
  | toggle id =>
    cases hf : m.todos.find? (fun t => t.id == id) with
    | none =>
      have heq : applyOp m (Op.toggle id) = m := by
        simp [applyOp, TodoModel.toggleComplete, hf]
      rw [heq]; exact h
    | some t0 =>
      have heq : applyOp m (Op.toggle id) =
          (TodoModel.save { m with todos := toggleFirst m.todos id }).notify := by
        simp [applyOp, TodoModel.toggleComplete, hf]
      rw [heq]
      intro t ht
      simp only [TodoModel.save, TodoModel.notify] at ht
      exact forall_mem_of_map_eq (P := validPriority)
        (toggleFirst_map_priority m.todos id) h t ht
  | delete id =>
    intro t ht
    simp only [applyOp, TodoModel.deleteTodo, TodoModel.save, TodoModel.notify] at ht
    exact h t (List.mem_of_mem_filter ht)
  | update id newText =>
    cases hf : m.todos.find? (fun t => t.id == id) with
    | none =>
      have heq : applyOp m (Op.update id newText) = m := by
        cases newText <;> simp [applyOp, TodoModel.updateTodo, hf]
      rw [heq]; exact h
    | some t0 =>
      cases newText with
      | none =>
        have heq : applyOp m (Op.update id none) = m := by
          simp [applyOp, TodoModel.updateTodo, hf]
        rw [heq]; exact h
      | some s =>
        by_cases hs : jsTrim s = ""
        · have heq : applyOp m (Op.update id (some s)) = m := by
            simp [applyOp, TodoModel.updateTodo, hf, hs]
          rw [heq]; exact h
        · have heq : applyOp m (Op.update id (some s)) =
              (TodoModel.save { m with todos := updateFirst m.todos id (jsTrim s) }).notify := by
            simp [applyOp, TodoModel.updateTodo, hf, hs]
          rw [heq]
          intro t ht
          simp only [TodoModel.save, TodoModel.notify] at ht
          exact forall_mem_of_map_eq (P := validPriority)
            (updateFirst_map_priority m.todos id (jsTrim s)) h t ht
  | clearCompleted =>
    intro t ht
    simp only [applyOp, TodoModel.clearCompleted, TodoModel.save, TodoModel.notify] at ht
    exact h t (List.mem_of_mem_filter ht)
  | clearAll =>
    intro t ht
    simp [applyOp, TodoModel.clearAll, TodoModel.save, TodoModel.notify] at ht
  | subscribe => exact h

/-! ## Claim theorems -/

/-- Claim C1: when `text` is absent or trims to the empty string, `addTodo`
is a complete no-op (task list, counter, store, subscriber list, and
notifications all unchanged); otherwise it appends exactly one task with the
trimmed text, `completed = false`, the supplied priority, and the pre-call
counter value as id, increments the counter by 1, persists the snapshot, and
performs one notification round without touching the subscriber list. -/
theorem addTodo_spec (m : TodoModel) (text : Option String) (priority now : String) :
    ((text = none ∨ ∃ s, text = some s ∧ jsTrim s = "") →
        m.addTodo text priority now = m) ∧
    (∀ s, text = some s → jsTrim s ≠ "" →
        (m.addTodo text priority now).todos
            = m.todos ++ [⟨m.nextId, jsTrim s, false, priority, now⟩] ∧
        (m.addTodo text priority now).todos.length = m.todos.length + 1 ∧
        (m.addTodo text priority now).nextId = m.nextId + 1 ∧
        storeSynced (m.addTodo text priority now) ∧
        (m.addTodo text priority now).notifyCount = m.notifyCount + 1 ∧
        (m.addTodo text priority now).listeners = m.listeners ∧
        (m.addTodo text priority now).storageKey = m.storageKey) := by
  constructor
  · rintro (rfl | ⟨s, rfl, hs⟩)
    · simp [TodoModel.addTodo]
    · simp [TodoModel.addTodo, hs]
  · rintro s rfl hs
    have heq : m.addTodo (some s) priority now =
        (TodoModel.save { m with
          todos := m.todos ++ [⟨m.nextId, jsTrim s, false, priority, now⟩]
          nextId := m.nextId + 1 }).notify := by
      simp [TodoModel.addTodo, hs]
    rw [heq]
    refine ⟨?_, ?_, ?_, storeSynced_save_notify _, ?_, ?_, ?_⟩ <;>
      simp [TodoModel.save, TodoModel.notify]

/-- Witness for C1 at concrete inputs: whitespace-only text is a no-op and
`" hi "` is appended trimmed. -/
theorem addTodo_spec_witness :
    (initialModel "todos" []).addTodo (some "  ") "medium" "t" = initialModel "todos" [] ∧
    ((initialModel "todos" []).addTodo (some " hi ") "high" "t").todos
        = (initialModel "todos" []).todos ++ [⟨1, "hi", false, "high", "t"⟩] := by
  constructor
  · exact (addTodo_spec (initialModel "todos" []) (some "  ") "medium" "t").1
      (Or.inr ⟨"  ", rfl, by decide⟩)
  · have h := ((addTodo_spec (initialModel "todos" []) (some " hi ") "high" "t").2
      " hi " rfl (by decide)).1
    simpa using h

/-- Claim C2: in every state reached from the initial model (empty list,
counter 1) by public operations, task ids are pairwise distinct and the
counter strictly exceeds every id in the list; every id present in any
intermediate state (every id ever issued) is below the final counter; and
every operation either changes no data and no store entry, or ends with the
store holding the full current snapshot (`items` and `nextId`). -/
theorem reachable_ids_unique_bounded_persisted (pfx : String) (store₀ : LocalStorage)
    (ops : List Op) :
    (idsOf (run (initialModel pfx store₀) ops)).Nodup ∧
    (∀ t ∈ (run (initialModel pfx store₀) ops).todos,
        t.id < (run (initialModel pfx store₀) ops).nextId) ∧
    (∀ pre post, ops = pre ++ post →
        ∀ t ∈ (run (initialModel pfx store₀) pre).todos,
          t.id < (run (initialModel pfx store₀) ops).nextId) ∧
    (∀ (m : TodoModel) (op : Op),
        ((applyOp m op).todos = m.todos ∧ (applyOp m op).nextId = m.nextId ∧
          (applyOp m op).store = m.store) ∨ storeSynced (applyOp m op)) := by
  have hinit : Inv (initialModel pfx store₀) := by
    constructor
    · simp [idsOf, initialModel]
    · intro t ht
      simp [initialModel] at ht
  have hinv := run_inv ops (initialModel pfx store₀) hinit
  refine ⟨hinv.1, hinv.2, ?_, fun m op => applyOp_data_noop_or_synced m op⟩
  intro pre post hsplit t ht
  have hpre := run_inv pre (initialModel pfx store₀) hinit
  have hb := hpre.2 t ht
  have hmono : (run (initialModel pfx store₀) pre).nextId ≤
      (run (initialModel pfx store₀) ops).nextId := by
    subst hsplit
    simp only [run, List.foldl_append]
    exact run_nextId_mono post _
  omega

/-- Witness for C2: the id issued by the first `addTodo` stays below the
counter after a later operation. -/
theorem reachable_ids_witness :
    (⟨1, "a", false, "medium", "t0"⟩ : Task).id < (run (initialModel "todos" [])
        [Op.add (some "a") none "t0", Op.clearCompleted]).nextId :=
  (reachable_ids_unique_bounded_persisted "todos" []
      [Op.add (some "a") none "t0", Op.clearCompleted]).2.2.1
    [Op.add (some "a") none "t0"] [Op.clearCompleted] rfl
    ⟨1, "a", false, "medium", "t0"⟩ (by decide)

/-- Claim C3: for a model whose store holds the snapshot written by `save`,
constructing a fresh `TodoModel` over that store reproduces the task list
and the next-id counter exactly. -/
theorem persisted_model_roundtrip (m : TodoModel) (h : storeSynced m) :
    (TodoModel.init m.storageKey m.store).todos = m.todos ∧
    (TodoModel.init m.storageKey m.store).nextId = m.nextId := by
  obtain ⟨h1, h2⟩ := h
  have hload1 : StorageService.load m.store m.storageKey "items" (Json.arr [])
      = tasksToJson m.todos := by
    simp [StorageService.load, h1]
  have hload2 : StorageService.load m.store m.storageKey "nextId" (Json.num 1)
      = Json.num (Int.ofNat m.nextId) := by
    simp [StorageService.load, h2]
  constructor
  · simp [TodoModel.init, hload1, decodeItems_tasksToJson]
  · simp [TodoModel.init, hload2, decodeNat_ofNat]

/-- Witness for C3: rebuilding from the store written by `sampleModel.save`
restores the two tasks and the counter 3. -/
theorem persisted_model_roundtrip_witness :
    (TodoModel.init (sampleModel.save).storageKey (sampleModel.save).store).todos
        = (sampleModel.save).todos ∧
    (TodoModel.init (sampleModel.save).storageKey (sampleModel.save).store).nextId
        = (sampleModel.save).nextId :=
  persisted_model_roundtrip sampleModel.save ⟨rfl, rfl⟩

/-- Claim C4: when the list holds a task with the given id (ids are pairwise
distinct, the standing data-model invariant), `deleteTodo` removes exactly
that task, keeping every other task in order and shrinking the length by
exactly 1; when no task matches, the list is unchanged, yet the snapshot is
persisted and a notification round still happens. -/
theorem deleteTodo_spec (m : TodoModel) (id : Nat) :
    ((∀ t ∈ m.todos, t.id ≠ id) →
        (m.deleteTodo id).todos = m.todos ∧
        storeSynced (m.deleteTodo id) ∧
        (m.deleteTodo id).notifyCount = m.notifyCount + 1 ∧
        (m.deleteTodo id).nextId = m.nextId) ∧
    (∀ t, t ∈ m.todos → t.id = id → (m.todos.map Task.id).Nodup →
        ∃ l₁ l₂, m.todos = l₁ ++ t :: l₂ ∧
          (m.deleteTodo id).todos = l₁ ++ l₂ ∧
          (m.deleteTodo id).todos.length + 1 = m.todos.length ∧
          storeSynced (m.deleteTodo id) ∧
          (m.deleteTodo id).notifyCount = m.notifyCount + 1 ∧
          (m.deleteTodo id).nextId = m.nextId) := by
  have heq : m.deleteTodo id =
      (TodoModel.save { m with todos := m.todos.filter (fun t => t.id != id) }).notify := rfl
  constructor
  · intro h
    have hf : m.todos.filter (fun t => t.id != id) = m.todos :=
      List.filter_eq_self.mpr (fun u hu => by simpa using h u hu)
    rw [heq]
    exact ⟨by simp [TodoModel.save, TodoModel.notify, hf],
      storeSynced_save_notify _,
      by simp [TodoModel.save, TodoModel.notify],
      by simp [TodoModel.save, TodoModel.notify]⟩
  · intro t hmem hid hnd
    subst hid
    obtain ⟨l₁, l₂, hdec, h1, h2⟩ := exists_decomp_of_mem_nodup m.todos t hmem hnd
    refine ⟨l₁, l₂, hdec, ?_, ?_, ?_, ?_, ?_⟩
    · rw [heq]
      simp only [TodoModel.save, TodoModel.notify]
      rw [hdec]
      exact filter_ne_append l₁ t l₂ h1 h2
    · rw [heq]
      simp only [TodoModel.save, TodoModel.notify]
      rw [hdec, filter_ne_append l₁ t l₂ h1 h2]
      simp [List.length_append]
      omega
    · rw [heq]; exact storeSynced_save_notify _
    · rw [heq]; simp [TodoModel.save, TodoModel.notify]
    · rw [heq]; simp [TodoModel.save, TodoModel.notify]

/-- Witness for C4: deleting id 1 from the two-task sample removes exactly
that task. -/
theorem deleteTodo_spec_witness :
    ∃ l₁ l₂, sampleModel.todos = l₁ ++ (⟨1, "a", false, "medium", "t0"⟩ : Task) :: l₂ ∧
      (sampleModel.deleteTodo 1).todos = l₁ ++ l₂ ∧
      (sampleModel.deleteTodo 1).todos.length + 1 = sampleModel.todos.length ∧
      storeSynced (sampleModel.deleteTodo 1) ∧
      (sampleModel.deleteTodo 1).notifyCount = sampleModel.notifyCount + 1 ∧
      (sampleModel.deleteTodo 1).nextId = sampleModel.nextId :=
  (deleteTodo_spec sampleModel 1).2 ⟨1, "a", false, "medium", "t0"⟩ (by decide) rfl (by decide)

/-- Claim C5: on an id matching no task, `toggleComplete` and `updateTodo`
(for any new text) return the state unchanged (no mutation, no store write,
no notification); `updateTodo` with an absent or whitespace-only new text is
likewise a complete no-op even on an existing id. -/
theorem unknownId_and_emptyText_noop (m : TodoModel) (id : Nat) :
    ((∀ t ∈ m.todos, t.id ≠ id) →
        m.toggleComplete id = m ∧ (∀ newText, m.updateTodo id newText = m)) ∧
    m.updateTodo id none = m ∧
    (∀ s, jsTrim s = "" → m.updateTodo id (some s) = m) := by
  refine ⟨?_, ?_, ?_⟩
  · intro h
    have hfind : m.todos.find? (fun t => t.id == id) = none :=
      (find?_id_eq_none_iff m.todos id).mpr (by
        intro hmem
        obtain ⟨t, ht, he⟩ := List.mem_map.mp hmem
        exact h t ht he)
    constructor
    · simp [TodoModel.toggleComplete, hfind]
    · intro newText
      simp [TodoModel.updateTodo, hfind]
  · cases hf : m.todos.find? (fun t => t.id == id) <;> simp [TodoModel.updateTodo, hf]
  · intro s hs
    cases hf : m.todos.find? (fun t => t.id == id) <;> simp [TodoModel.updateTodo, hf, hs]

/-- Witness for C5 on the sample model: unknown id 99 and whitespace text
leave the state untouched. -/
theorem unknownId_and_emptyText_noop_witness :
    sampleModel.toggleComplete 99 = sampleModel ∧
    sampleModel.updateTodo 99 (some "x") = sampleModel ∧
    sampleModel.updateTodo 1 (some "   ") = sampleModel := by
  have h99 : ∀ t ∈ sampleModel.todos, t.id ≠ 99 := by decide
  exact ⟨((unknownId_and_emptyText_noop sampleModel 99).1 h99).1,
    ((unknownId_and_emptyText_noop sampleModel 99).1 h99).2 (some "x"),
    (unknownId_and_emptyText_noop sampleModel 1).2.2 "   " (by decide)⟩

/-- Claim C6 (amended): `load` returns the supplied default exactly when the
namespaced entry is absent, unparseable, or the underlying read throws; a
successfully parsed value is returned as-is whatever its shape — a
wrong-shaped but well-formed stored value is NOT replaced by the default. -/
theorem load_defaults (ls : LocalStorage) (pfx key : String) (d : Json) :
    (lookupEntry ls (fullKey pfx key) = none → StorageService.load ls pfx key d = d) ∧
    (lookupEntry ls (fullKey pfx key) = some Entry.malformed →
        StorageService.load ls pfx key d = d) ∧
    (lookupEntry ls (fullKey pfx key) = some Entry.readError →
        StorageService.load ls pfx key d = d) ∧
    (∀ j, lookupEntry ls (fullKey pfx key) = some (Entry.json j) →
        StorageService.load ls pfx key d = j) := by
  refine ⟨?_, ?_, ?_, ?_⟩ <;> intro h
  on_goal 4 => intro hj
  all_goals simp_all [StorageService.load]

/-- Witness for C6 at concrete stores: absent, malformed, read-error, and a
parsed wrong-shape value. -/
theorem load_defaults_witness :
    StorageService.load [] "todos" "items" (Json.arr []) = Json.arr [] ∧
    StorageService.load [(fullKey "todos" "items", Entry.malformed)] "todos" "items"
        (Json.arr []) = Json.arr [] ∧
    StorageService.load [(fullKey "todos" "nextId", Entry.readError)] "todos" "nextId"
        (Json.num 1) = Json.num 1 ∧
    StorageService.load [(fullKey "todos" "items", Entry.json (Json.num 5))] "todos" "items"
        (Json.arr []) = Json.num 5 :=
  ⟨(load_defaults [] "todos" "items" (Json.arr [])).1 rfl,
    (load_defaults _ "todos" "items" (Json.arr [])).2.1 rfl,
    (load_defaults _ "todos" "nextId" (Json.num 1)).2.2.1 rfl,
    (load_defaults _ "todos" "items" (Json.arr [])).2.2.2 (Json.num 5) rfl⟩

/-- Counterexample to C6 as stated: a number stored under the `items` key is
parsed successfully and returned to the caller; the caller does NOT receive
the supplied default `[]`. -/
theorem load_wrong_shape_not_default :
    StorageService.load [(fullKey "todos" "items", Entry.json (Json.num 5))] "todos" "items"
        (Json.arr []) = Json.num 5 ∧ Json.num 5 ≠ Json.arr [] :=
  ⟨rfl, fun h => Json.noConfusion h⟩

/-- Claim C7: on an existing id (under the pairwise-distinct-ids data-model
invariant) `toggleComplete` negates `completed` on exactly that task, keeping
its other fields, every other task, the order, the counter, and the listener
list; applied twice on the same id it restores the original task list. -/
theorem toggleComplete_spec (m : TodoModel) (id : Nat) :
    (∀ t, t ∈ m.todos → t.id = id → (m.todos.map Task.id).Nodup →
        ∃ l₁ l₂, m.todos = l₁ ++ t :: l₂ ∧
          (m.toggleComplete id).todos
              = l₁ ++ { t with completed := !t.completed } :: l₂ ∧
          (m.toggleComplete id).nextId = m.nextId ∧
          (m.toggleComplete id).listeners = m.listeners ∧
          (m.toggleComplete id).storageKey = m.storageKey) ∧
    ((m.toggleComplete id).toggleComplete id).todos = m.todos := by
  constructor
  · intro t hmem hid hnd
    subst hid
    obtain ⟨l₁, l₂, hdec, h1, h2⟩ := exists_decomp_of_mem_nodup m.todos t hmem hnd
    have hne : m.todos.find? (fun u => u.id == t.id) ≠ none := by
      intro hcon
      rw [find?_id_eq_none_iff] at hcon
      exact hcon (List.mem_map_of_mem Task.id hmem)
    obtain ⟨t1, ht1⟩ := Option.ne_none_iff_exists'.mp hne
    have heq : m.toggleComplete t.id =
        (TodoModel.save { m with todos := toggleFirst m.todos t.id }).notify := by
      simp [TodoModel.toggleComplete, ht1]
    refine ⟨l₁, l₂, hdec, ?_, ?_, ?_, ?_⟩
    · rw [heq]
      simp only [TodoModel.save, TodoModel.notify]
      rw [hdec]
      exact toggleFirst_append l₁ t l₂ h1
    · rw [heq]; simp [TodoModel.save, TodoModel.notify]
    · rw [heq]; simp [TodoModel.save, TodoModel.notify]
    · rw [heq]; simp [TodoModel.save, TodoModel.notify]
  · by_cases hn : m.todos.find? (fun u => u.id == id) = none
    · simp [TodoModel.toggleComplete, hn]
    · obtain ⟨t1, ht1⟩ := Option.ne_none_iff_exists'.mp hn
      have h1 : m.toggleComplete id =
          (TodoModel.save { m with todos := toggleFirst m.todos id }).notify := by
        simp [TodoModel.toggleComplete, ht1]
      have hmemid : id ∈ m.todos.map Task.id := by
        by_contra hcon
        exact hn ((find?_id_eq_none_iff m.todos id).mpr hcon)
      have hne2 : (toggleFirst m.todos id).find? (fun u => u.id == id) ≠ none := by
        intro hcon
        rw [find?_id_eq_none_iff, toggleFirst_map_id] at hcon
        exact hcon hmemid
      obtain ⟨t2, ht2⟩ := Option.ne_none_iff_exists'.mp hne2
      have h2 : ((m.toggleComplete id).toggleComplete id).todos
          = toggleFirst (toggleFirst m.todos id) id := by
        rw [h1]
        simp [TodoModel.toggleComplete, TodoModel.save, TodoModel.notify, ht2]
      rw [h2, toggleFirst_toggleFirst]

/-- Witness for C7: toggling id 1 on the sample flips exactly that task, and
toggling twice restores the list. -/
theorem toggleComplete_spec_witness :
    (∃ l₁ l₂, sampleModel.todos = l₁ ++ (⟨1, "a", false, "medium", "t0"⟩ : Task) :: l₂ ∧
      (sampleModel.toggleComplete 1).todos
          = l₁ ++ (⟨1, "a", true, "medium", "t0"⟩ : Task) :: l₂ ∧
      (sampleModel.toggleComplete 1).nextId = sampleModel.nextId ∧
      (sampleModel.toggleComplete 1).listeners = sampleModel.listeners ∧
      (sampleModel.toggleComplete 1).storageKey = sampleModel.storageKey) ∧
    ((sampleModel.toggleComplete 1).toggleComplete 1).todos = sampleModel.todos :=
  ⟨(toggleComplete_spec sampleModel 1).1 ⟨1, "a", false, "medium", "t0"⟩
      (by decide) rfl (by decide),
    (toggleComplete_spec sampleModel 1).2⟩

/-- Claim C8: `search` is a pure read (it is a function of the state that
produces a list and no new state, so it can mutate nothing and notify
nobody); the empty query returns the full task list itself, and any query
selects, in list order (a sublist), exactly the tasks whose text contains
the query as a case-insensitive substring. -/
theorem search_spec (m : TodoModel) (query : String) :
    m.search "" = m.todos ∧
    (m.search query).Sublist m.todos ∧
    (∀ t, t ∈ m.search query ↔
        t ∈ m.todos ∧ (jsToLower query).data <:+: (jsToLower t.text).data) := by
  refine ⟨by simp [TodoModel.search], ?_, ?_⟩
  · by_cases h : query = ""
    · simp [TodoModel.search, h]
    · simp only [TodoModel.search, if_neg h]
      exact List.filter_sublist m.todos
  · intro t
    by_cases h : query = ""
    · subst h
      have hnil : (jsToLower "").data = [] := rfl
      simp [TodoModel.search, hnil]
    · simp [TodoModel.search, h, List.mem_filter, jsIncludes]

/-- Claim C9 (amended): the model itself never validates `priority`, so the
documented invariant holds exactly for runs whose `addTodo` calls omit the
priority (defaulting to `medium`) or pass one of `low`, `medium`, `high`:
in every state so reached, every task's priority is one of the three. -/
theorem reachable_priority_valid (pfx : String) (store₀ : LocalStorage) (ops : List Op)
    (h : ∀ op ∈ ops, opPriorityOk op) :
    ∀ t ∈ (run (initialModel pfx store₀) ops).todos, validPriority t.priority := by
  have hrun : ∀ (ops' : List Op), (∀ op ∈ ops', opPriorityOk op) →
      ∀ (m : TodoModel), PriInv m → PriInv (run m ops') := by
    intro ops'
    induction ops' with
    | nil => exact fun _ m hm => hm
    | cons op ops' ih =>
      intro hall m hm
      exact ih (fun o ho => hall o (List.mem_cons_of_mem op ho)) (applyOp m op)
        (applyOp_priInv m op (hall op (List.mem_cons_self op ops')) hm)
  exact hrun ops h (initialModel pfx store₀) (by intro t ht; simp [initialModel] at ht)

/-- Witness for C9 (amended) at a concrete run with one defaulted and one
`high` priority: the second task's priority is in the documented set. -/
theorem reachable_priority_valid_witness :
    validPriority (⟨2, "b", false, "high", "t1"⟩ : Task).priority :=
  reachable_priority_valid "todos" []
    [Op.add (some "a") none "t0", Op.add (some "b") (some "high") "t1"]
    (by
      intro op hop
      rcases List.mem_cons.mp hop with rfl | hop2
      · trivial
      · rcases List.mem_cons.mp hop2 with rfl | hop3
        · exact Or.inr (Or.inr rfl)
        · cases hop3)
    ⟨2, "b", false, "high", "t1"⟩ (by decide)

/-- Counterexample to C9 as stated: `addTodo` stores whatever priority the
caller passes, so the state reached by `addTodo('x', 'urgent')` holds a task
whose priority is none of `low`, `medium`, `high`. -/
theorem priority_not_validated :
    ¬ (∀ t ∈ (run (initialModel "todos" []) [Op.add (some "x") (some "urgent") "t0"]).todos,
        t.priority = "low" ∨ t.priority = "medium" ∨ t.priority = "high") := by
  decide

/-- Claim C10: constructing a `TodoModel` leaves the persistent store exactly
as it was (no write, no removal), registers no notification and no listener,
and reads only the `items` and `nextId` entries: two stores agreeing on
those two namespaced keys produce the same task list and counter. -/
theorem init_reads_only_items_nextId (pfx : String) (st st' : LocalStorage) :
    (TodoModel.init pfx st).store = st ∧
    (TodoModel.init pfx st).notifyCount = 0 ∧
    (TodoModel.init pfx st).listeners = 0 ∧
    (lookupEntry st (fullKey pfx "items") = lookupEntry st' (fullKey pfx "items") →
      lookupEntry st (fullKey pfx "nextId") = lookupEntry st' (fullKey pfx "nextId") →
      (TodoModel.init pfx st).todos = (TodoModel.init pfx st').todos ∧
      (TodoModel.init pfx st).nextId = (TodoModel.init pfx st').nextId) := by
  refine ⟨rfl, rfl, rfl, ?_⟩
  intro h1 h2
  constructor
  · simp [TodoModel.init, StorageService.load, h1]
  · simp [TodoModel.init, StorageService.load, h2]

/-- Witness for C10: a store holding only an unrelated key behaves like the
empty store for construction, and is returned unchanged. -/
theorem init_reads_only_items_nextId_witness :
    (TodoModel.init "todos" [("unrelated", Entry.malformed)]).store
        = [("unrelated", Entry.malformed)] ∧
    (TodoModel.init "todos" [("unrelated", Entry.malformed)]).notifyCount = 0 ∧
    (TodoModel.init "todos" [("unrelated", Entry.malformed)]).listeners = 0 ∧
    (TodoModel.init "todos" [("unrelated", Entry.malformed)]).todos
        = (TodoModel.init "todos" []).todos ∧
    (TodoModel.init "todos" [("unrelated", Entry.malformed)]).nextId
        = (TodoModel.init "todos" []).nextId := by
  have h := init_reads_only_items_nextId "todos" [("unrelated", Entry.malformed)] []
  have h4 := h.2.2.2 rfl rfl
  exact ⟨h.1, h.2.1, h.2.2.1, h4.1, h4.2⟩

end TodoApp
